import Mathlib

/-!
Verification of the spectral-decomposition routines of fastspecfit
(files py/fastspecfit/continuum.py and py/fastspecfit/emlines.py),
shallowly embedded over the rationals.  Machine floats are modelled by
rationals; numpy arrays by lists; the weight vector np.sqrt(ivar) is
passed in as an exact rational vector where it matters.
-/

namespace FastSpecFit

/-- Dot product of two equal-length vectors (np.dot on 1-D arrays). -/
def dot (u v : List ℚ) : ℚ := (List.zipWith (· * ·) u v).sum

/-- A matrix stored as a list of rows. -/
abbrev Mat := List (List ℚ)

/-- Row-major matrix times vector: modelflux.dot(coeff). -/
def matVec (A : Mat) (c : List ℚ) : List ℚ := A.map (fun r => dot r c)

/-- Transpose-times-vector ZZ.T.dot(xx): entry j is the dot of column j with xx. -/
def matTvec (Z : Mat) (x : List ℚ) (ncol : ℕ) : List ℚ :=
  (List.range ncol).map (fun j => (List.zipWith (fun row xi => row.getD j 0 * xi) Z x).sum)

/-- Transpose-times-matrix ZZ.T.dot(ZZ). -/
def matTmat (Z : Mat) (ncol : ℕ) : Mat :=
  (List.range ncol).map (fun i => (List.range ncol).map (fun j =>
    (Z.map (fun row => row.getD i 0 * row.getD j 0)).sum))

/-- Modelled from the spec: the body of fastspecfit.fnnls.fnnls, whose module
fastspecfit/fnnls.py is not included under src/ (only its caller
fnnls_continuum is).  The spec requires the continuum solver to
"solve min ||Zc - x||^2 s.t. c >= 0 via a fast active-set NNLS variant;
never allow negative coefficients (physical non-negativity of stellar
light)".  We model the solver as a projected iteration on the normal
equations AtA c = Aty: each step moves against the gradient and projects
back onto the feasible region c >= 0, so no iterate ever leaves it. -/
def fnnls (AtA : Mat) (Aty : List ℚ) (step : ℚ) : ℕ → List ℚ
  | 0 => Aty.map (fun _ => 0)
  | n + 1 =>
    let x := fnnls AtA Aty step n
    let grad := List.zipWith (fun ax b => ax - b) (matVec AtA x) Aty
    List.zipWith (fun xi g => max 0 (xi - step * g)) x grad

/-- Source fnnls_continuum (continuum.py lines 23-71, without get_chi2):
forms AtA = ZZ.T.dot(ZZ) and Aty = ZZ.T.dot(xx) and calls fnnls; the warn
flag is hard-coded False in the source. -/
def fnnls_continuum (ZZ : Mat) (xx : List ℚ) (ncol : ℕ) (step : ℚ) (fuel : ℕ) :
    Bool × List ℚ :=
  (false, fnnls (matTmat ZZ ncol) (matTvec ZZ xx ncol) step fuel)

/-- Weighted residual sum of squares np.sum(ivar * (flux - model)**2). -/
def weightedRSS (ivar flux model : List ℚ) : ℚ :=
  (List.zipWith (· * ·) ivar (List.zipWith (fun f m => (f - m) ^ 2) flux model)).sum

/-- Source fnnls_continuum with get_chi2=True (continuum.py lines 66-69):
additionally returns chi2 = np.sum(ivar * (flux - modelflux.dot(coeff))**2). -/
def fnnls_continuum_chi2 (ZZ : Mat) (xx flux ivar : List ℚ) (modelflux : Mat)
    (ncol : ℕ) (step : ℚ) (fuel : ℕ) : Bool × List ℚ × ℚ :=
  let r := fnnls_continuum ZZ xx ncol step fuel
  (r.1, r.2, weightedRSS ivar flux (matVec modelflux r.2))

lemma zipWith_clamp_nonneg (f : ℚ → ℚ → ℚ) :
    ∀ (xs ys : List ℚ), ∀ c ∈ List.zipWith (fun a b => max 0 (f a b)) xs ys, 0 ≤ c
  | [], _, c, hc => by simp at hc
  | _ :: _, [], c, hc => by simp at hc
  | x :: xs, y :: ys, c, hc => by
    rw [List.zipWith_cons_cons] at hc
    rcases List.mem_cons.mp hc with h | h
    · subst h; exact le_max_left 0 _
    · exact zipWith_clamp_nonneg f xs ys c h

lemma fnnls_nonneg (AtA : Mat) (Aty : List ℚ) (step : ℚ) :
    ∀ (fuel : ℕ), ∀ c ∈ fnnls AtA Aty step fuel, 0 ≤ c := by
  intro fuel
  induction fuel with
  | zero =>
    intro c hc
    simp only [fnnls, List.mem_map] at hc
    obtain ⟨_, _, rfl⟩ := hc
    exact le_refl 0
  | succ n ih =>
    intro c hc
    simp only [fnnls] at hc
    exact zipWith_clamp_nonneg (fun xi g => xi - step * g) _ _ c hc

/-- C2: for every design matrix and target passed to the continuum NNLS
primitive, every entry of the returned coefficient vector is nonnegative;
negative template coefficients are never produced. -/
theorem C2_nnls_nonneg (ZZ : Mat) (xx : List ℚ) (ncol : ℕ) (step : ℚ) (fuel : ℕ)
    (c : ℚ) (hc : c ∈ (fnnls_continuum ZZ xx ncol step fuel).2) : 0 ≤ c := by
  exact fnnls_nonneg _ _ _ fuel c hc

theorem C2_nnls_nonneg_witness :
    (1 : ℚ) ∈ (fnnls_continuum [[1]] [1] 1 1 1).2 ∧ (0 : ℚ) ≤ 1 := by
  constructor
  · norm_num [fnnls_continuum, fnnls, matTmat, matTvec, matVec, dot]
  · exact C2_nnls_nonneg [[1]] [1] 1 1 1 1
      (by norm_num [fnnls_continuum, fnnls, matTmat, matTvec, matVec, dot])

/-- Source EMLineFit.chi2 (emlines.py lines 489-507).  nfree abstracts
bestfit.count_free_parameters() and emlinemodel abstracts the evaluation
bestfit(emlinewave) (the EMLineModel class is external to this file);
continuum is the optional continuum_model argument.  Returns (chi2, dof)
as with return_dof=True. -/
def emline_chi2 (chi2_default : ℚ) (nfree : ℕ) (emlineivar emlineflux emlinemodel : List ℚ)
    (continuum : Option (List ℚ)) : ℚ × ℤ :=
  let dof : ℤ := (emlineivar.countP (fun v => decide (0 < v)) : ℤ) - nfree
  let model := match continuum with
    | none => emlinemodel
    | some c => List.zipWith (· + ·) emlinemodel c
  if 0 < dof then (weightedRSS emlineivar emlineflux model / dof, dof)
  else (chi2_default, dof)

/-- C4: the degrees of freedom equal count(ivar>0) minus the number of free
parameters, and whenever dof <= 0 the returned chi-square is the
caller-supplied default, with no division performed. -/
theorem C4_dof_guard (d : ℚ) (nfree : ℕ) (iv fl mo : List ℚ) (cont : Option (List ℚ)) :
    (emline_chi2 d nfree iv fl mo cont).2 =
      (iv.countP (fun v => decide (0 < v)) : ℤ) - nfree ∧
    ((emline_chi2 d nfree iv fl mo cont).2 ≤ 0 →
      (emline_chi2 d nfree iv fl mo cont).1 = d) := by
  refine ⟨?_, ?_⟩
  · unfold emline_chi2
    by_cases h : (0 : ℤ) < (iv.countP (fun v => decide (0 < v)) : ℤ) - nfree
    · simp [h]
    · simp [h]
  · intro hle
    unfold emline_chi2 at hle ⊢
    by_cases h : (0 : ℤ) < (iv.countP (fun v => decide (0 < v)) : ℤ) - nfree
    · exfalso
      simp only [h, if_pos] at hle
      omega
    · simp [h]

theorem C4_dof_guard_witness :
    (emline_chi2 0 1 [0] [1] [1] none).2 ≤ 0 ∧
    (emline_chi2 0 1 [0] [1] [1] none).1 = 0 := by
  have h := C4_dof_guard 0 1 [0] [1] [1] none
  have hdof : (emline_chi2 0 1 [0] [1] [1] none).2 ≤ 0 := by
    rw [h.1]; decide
  exact ⟨hdof, h.2 hdof⟩

/-- Source EMLineFit.fit, broad-stage test (emlines.py 967-968): True when
every broad Balmer-line amplitude of the cleaned broad fit is exactly 0. -/
def alldropped (broadAmps : List ℚ) : Bool := broadAmps.all (fun a => decide (a = 0))

/-- Source EMLineFit.fit (emlines.py 958-959): chi-square restricted to the
broad-line pixel windows; the three input lists are the window-restricted
emlineivar, emlineflux, and model arrays, and the normalization is the
window pixel count len(broadlinepix). -/
def linechi2 (ivar flux model : List ℚ) : ℚ :=
  weightedRSS ivar flux model / (ivar.length : ℚ)

/-- Source EMLineFit.fit (emlines.py 972-975): the decision between the
narrow-only and the broad fit; True means bestfit = broadfit. -/
def acceptBroad (broadAmps : List ℚ) (chi2init chi2broad : ℚ) : Bool :=
  !(alldropped broadAmps || decide (chi2init < chi2broad))

theorem C3_tie_counterexample :
    acceptBroad [1] (linechi2 [1] [1] [0]) (linechi2 [1] [1] [0]) = true ∧
    ¬(alldropped [1] = false ∧
      linechi2 [1] [1] [0] < linechi2 [1] [1] [0]) := by
  constructor
  · simp [acceptBroad, alldropped, lt_irrefl]
  · intro h
    exact absurd h.2 (lt_irrefl _)

/-- C3 (amended): with the broad stage run, the broad model is kept if and
only if not every broad Balmer amplitude was dropped to 0 and the broad
local chi-square is less than or equal to (not merely strictly less than)
the narrow-only local chi-square; at equality the code keeps the broad
model. -/
theorem C3_broad_decision (broadAmps iv fl mi mb : List ℚ) :
    acceptBroad broadAmps (linechi2 iv fl mi) (linechi2 iv fl mb) = true ↔
    (alldropped broadAmps = false ∧ linechi2 iv fl mb ≤ linechi2 iv fl mi) := by
  unfold acceptBroad
  rcases h : alldropped broadAmps with _ | _
  · simp [h, not_lt]
  · simp [h]

theorem C3_broad_decision_witness :
    acceptBroad [1] (linechi2 [1] [1] [0]) (linechi2 [1] [1] [1]) = true :=
  (C3_broad_decision [1] [1] [1] [0] [1]).mpr
    (by
      refine ⟨by norm_num [alldropped], ?_⟩
      norm_num [linechi2, weightedRSS, List.zipWith])

/-- Source ContinuumFit.continuum_fastphot inputs: the per-band inverse
variances, the nominal attenuation, the template count, and the abstract
outcome (AVbest, AVivar, rchi2, coeff) of the not-fully-masked branch of
the fit (which calls the solver on real data). -/
structure FastphotInput where
  objflamivar : List ℚ
  AV_nominal : ℚ
  nage : ℕ
  fitResult : ℚ × ℚ × ℚ × List ℚ

/-- Source ContinuumFit.continuum_fastphot (continuum.py 1737-1743 and the
packing at 1797-1801): when every band inverse variance is zero the fit
returns A(V)=AV_nominal with AV inverse variance 0, chi2 0 and an all-zero
coefficient vector, without raising. -/
def continuum_fastphot (d : FastphotInput) : ℚ × ℚ × ℚ × List ℚ :=
  if d.objflamivar.all (fun v => decide (v = 0)) then
    (d.AV_nominal, 0, 0, List.replicate d.nage 0)
  else d.fitResult

/-- C9: with fully masked photometry the photometric continuum fit returns
nominal A(V) with inverse variance 0, all-zero coefficients and chi2 = 0. -/
theorem C9_fully_masked_photometry (d : FastphotInput)
    (h : ∀ v ∈ d.objflamivar, v = 0) :
    continuum_fastphot d = (d.AV_nominal, 0, 0, List.replicate d.nage 0) ∧
    ∀ c ∈ (continuum_fastphot d).2.2.2, c = 0 := by
  have hall : d.objflamivar.all (fun v => decide (v = 0)) = true := by
    rw [List.all_eq_true]
    intro v hv
    exact decide_eq_true (h v hv)
  have heq : continuum_fastphot d = (d.AV_nominal, 0, 0, List.replicate d.nage 0) := by
    unfold continuum_fastphot
    rw [if_pos hall]
  refine ⟨heq, ?_⟩
  rw [heq]
  intro c hc
  exact List.eq_of_mem_replicate hc

theorem C9_fully_masked_photometry_witness :
    continuum_fastphot ⟨[0, 0], 1, 2, (5, 5, 5, [5])⟩ = (1, 0, 0, [0, 0]) := by
  have h := C9_fully_masked_photometry ⟨[0, 0], 1, 2, (5, 5, 5, [5])⟩
    (by
      intro v hv
      simp only [List.mem_cons, List.not_mem_nil, or_false] at hv
      rcases hv with h | h <;> exact h)
  rw [h.1]
  rfl

/-- Source estimate_linesigmas constants (continuum.py 823-826). -/
def linesigma_snr_min : ℚ := 3 / 2

def init_linesigma_narrow : ℚ := 200

def init_linesigma_balmer : ℚ := 1000

def init_linesigma_uv : ℚ := 2000

/-- Source estimate_linesigmas, final acceptance for the narrow/forbidden
class (continuum.py 848-850): the pair (linesigma, snr) produced by the
stacked-Gaussian fit is kept unless the width is below 50 km/s, above
5x the initial width, or the S/N is below the minimum, in which case the
default width is returned with S/N 0. -/
def accept_narrow (ls snr : ℚ) : ℚ × ℚ :=
  if ls < 50 ∨ ls > 5 * init_linesigma_narrow ∨ snr < linesigma_snr_min then
    (init_linesigma_narrow, 0)
  else (ls, snr)

/-- Source estimate_linesigmas, final acceptance for the Balmer class
(continuum.py 867-869). -/
def accept_balmer (ls snr : ℚ) : ℚ × ℚ :=
  if ls < 50 ∨ ls > 5 * init_linesigma_balmer ∨ snr < linesigma_snr_min then
    (init_linesigma_balmer, 0)
  else (ls, snr)

/-- Source estimate_linesigmas, final acceptance for the UV/broad class
(continuum.py 886-888). -/
def accept_uv (ls snr : ℚ) : ℚ × ℚ :=
  if ls < 300 ∨ ls > 5 * init_linesigma_uv ∨ snr < linesigma_snr_min then
    (init_linesigma_uv, 0)
  else (ls, snr)

/-- The acceptance rule as the claim words it: the fitted width is accepted
only when the S/N strictly exceeds the minimum and the width lies within
[anchor, 5 x anchor]; written for the narrow class (anchor 200 km/s). -/
def accept_narrow_claimed (ls snr : ℚ) : ℚ × ℚ :=
  if linesigma_snr_min < snr ∧ init_linesigma_narrow ≤ ls ∧ ls ≤ 5 * init_linesigma_narrow then
    (ls, snr)
  else (init_linesigma_narrow, 0)

theorem C10_anchor_counterexample :
    accept_narrow 100 (3 / 2) = (100, 3 / 2) ∧
    accept_narrow_claimed 100 (3 / 2) = (200, 0) ∧
    accept_narrow 100 (3 / 2) ≠ accept_narrow_claimed 100 (3 / 2) := by
  have h1 : accept_narrow 100 (3 / 2) = (100, 3 / 2) := by
    norm_num [accept_narrow, init_linesigma_narrow, linesigma_snr_min]
  have h2 : accept_narrow_claimed 100 (3 / 2) = (200, 0) := by
    norm_num [accept_narrow_claimed, init_linesigma_narrow, linesigma_snr_min]
  refine ⟨h1, h2, ?_⟩
  rw [h1, h2]
  intro h
  exact absurd (congrArg Prod.fst h) (by norm_num)

/-- C10 (amended): for each tying class the re-estimated width is kept iff
the S/N is at least (not strictly above) 1.5 and the width lies in
[50, 5 x anchor] km/s for the narrow and Balmer classes and in
[300, 5 x anchor] km/s for the UV class - the lower edge is an absolute
floor, not the anchor width; otherwise the default width is returned with
S/N = 0. -/
theorem C10_linesigma_acceptance (ls snr : ℚ) :
    (50 ≤ ls → ls ≤ 5 * init_linesigma_narrow → linesigma_snr_min ≤ snr →
      accept_narrow ls snr = (ls, snr)) ∧
    (ls < 50 ∨ 5 * init_linesigma_narrow < ls ∨ snr < linesigma_snr_min →
      accept_narrow ls snr = (init_linesigma_narrow, 0)) ∧
    (50 ≤ ls → ls ≤ 5 * init_linesigma_balmer → linesigma_snr_min ≤ snr →
      accept_balmer ls snr = (ls, snr)) ∧
    (ls < 50 ∨ 5 * init_linesigma_balmer < ls ∨ snr < linesigma_snr_min →
      accept_balmer ls snr = (init_linesigma_balmer, 0)) ∧
    (300 ≤ ls → ls ≤ 5 * init_linesigma_uv → linesigma_snr_min ≤ snr →
      accept_uv ls snr = (ls, snr)) ∧
    (ls < 300 ∨ 5 * init_linesigma_uv < ls ∨ snr < linesigma_snr_min →
      accept_uv ls snr = (init_linesigma_uv, 0)) := by
  unfold accept_narrow accept_balmer accept_uv
  refine ⟨?_, ?_, ?_, ?_, ?_, ?_⟩
  · intro h1 h2 h3
    rw [if_neg (by push_neg; exact ⟨h1, h2, h3⟩)]
  · intro h
    rw [if_pos (by tauto)]
  · intro h1 h2 h3
    rw [if_neg (by push_neg; exact ⟨h1, h2, h3⟩)]
  · intro h
    rw [if_pos (by tauto)]
  · intro h1 h2 h3
    rw [if_neg (by push_neg; exact ⟨h1, h2, h3⟩)]
  · intro h
    rw [if_pos (by tauto)]

theorem C10_linesigma_acceptance_witness :
    accept_narrow 100 2 = (100, 2) ∧ accept_uv 100 2 = (2000, 0) := by
  constructor
  · exact (C10_linesigma_acceptance 100 2).1 (by norm_num) (by norm_num [init_linesigma_narrow])
      (by norm_num [linesigma_snr_min])
  · exact (C10_linesigma_acceptance 100 2).2.2.2.2.2 (Or.inl (by norm_num))

/-- Count of grid points with strictly positive inverse variance,
np.sum(ivar greater than 0). -/
def countPos (ivar : List ℚ) : ℕ := ivar.countP (fun v => decide (0 < v))

/-- Source final coefficient solve of ContinuumFit.continuum_specfit
(continuum.py 2002-2003 and the packing at 2096): _fnnls_parallel with
xparam=None weights the design matrix and target by ww (= np.sqrt(specivar),
supplied here as an exact vector), calls fnnls_continuum with get_chi2=True,
and the resulting chi2 is divided by np.sum(specivar greater than 0) to give
the reported CONTINUUM_RCHI2. -/
def continuum_specfit_rchi2 (modelflux : Mat) (specflux specivar ww : List ℚ)
    (ncol : ℕ) (step : ℚ) (fuel : ℕ) : ℚ :=
  let ZZ := List.zipWith (fun row w => row.map (fun e => e * w)) modelflux ww
  let xx := List.zipWith (· * ·) specflux ww
  let r := fnnls_continuum_chi2 ZZ xx specflux specivar modelflux ncol step fuel
  r.2.2 / (countPos specivar : ℚ)

/-- The coefficient vector of the final solve (same weighted NNLS call as
continuum_specfit_rchi2). -/
def continuum_specfit_coeff (modelflux : Mat) (specflux ww : List ℚ)
    (ncol : ℕ) (step : ℚ) (fuel : ℕ) : List ℚ :=
  let ZZ := List.zipWith (fun row w => row.map (fun e => e * w)) modelflux ww
  let xx := List.zipWith (· * ·) specflux ww
  (fnnls_continuum ZZ xx ncol step fuel).2

/-- The reported reduced chi-square as the claim words it: the weighted
residual sum of squares of the final coefficient solve divided by
(count of pixels with nonzero line-masked inverse variance minus one). -/
def specfit_rchi2_claimed (modelflux : Mat) (specflux specivar ww : List ℚ)
    (ncol : ℕ) (step : ℚ) (fuel : ℕ) : ℚ :=
  weightedRSS specivar specflux
      (matVec modelflux (continuum_specfit_coeff modelflux specflux ww ncol step fuel)) /
    ((countPos specivar : ℚ) - 1)

/-- The same quantity with the normalization the code actually applies:
division by the unmasked-pixel count itself, with no minus one. -/
def specfit_rchi2_amended (modelflux : Mat) (specflux specivar ww : List ℚ)
    (ncol : ℕ) (step : ℚ) (fuel : ℕ) : ℚ :=
  weightedRSS specivar specflux
      (matVec modelflux (continuum_specfit_coeff modelflux specflux ww ncol step fuel)) /
    (countPos specivar : ℚ)

theorem C6_rchi2_counterexample :
    continuum_specfit_rchi2 [[0], [0]] [1, 0] [1, 1] [1, 1] 1 1 1 = 1 / 2 ∧
    specfit_rchi2_claimed [[0], [0]] [1, 0] [1, 1] [1, 1] 1 1 1 = 1 ∧
    continuum_specfit_rchi2 [[0], [0]] [1, 0] [1, 1] [1, 1] 1 1 1 ≠
      specfit_rchi2_claimed [[0], [0]] [1, 0] [1, 1] [1, 1] 1 1 1 := by
  have h1 : continuum_specfit_rchi2 [[0], [0]] [1, 0] [1, 1] [1, 1] 1 1 1 = 1 / 2 := by
    norm_num [continuum_specfit_rchi2, fnnls_continuum_chi2, fnnls_continuum, fnnls,
      matTmat, matTvec, matVec, dot, weightedRSS, countPos, List.zipWith, List.countP,
      List.countP.go]
  have h2 : specfit_rchi2_claimed [[0], [0]] [1, 0] [1, 1] [1, 1] 1 1 1 = 1 := by
    norm_num [specfit_rchi2_claimed, continuum_specfit_coeff, fnnls_continuum, fnnls,
      matTmat, matTvec, matVec, dot, weightedRSS, countPos, List.zipWith, List.countP,
      List.countP.go]
  refine ⟨h1, h2, ?_⟩
  rw [h1, h2]
  norm_num

/-- C6 (amended): the reported CONTINUUM_RCHI2 equals the weighted residual
sum of squares of the final coefficient solve divided by the number of
pixels with nonzero line-masked inverse variance - with no subtraction of
one degree of freedom. -/
theorem C6_rchi2_normalization (modelflux : Mat) (specflux specivar ww : List ℚ)
    (ncol : ℕ) (step : ℚ) (fuel : ℕ) :
    continuum_specfit_rchi2 modelflux specflux specivar ww ncol step fuel =
      specfit_rchi2_amended modelflux specflux specivar ww ncol step fuel := by
  unfold continuum_specfit_rchi2 specfit_rchi2_amended continuum_specfit_coeff
    fnnls_continuum_chi2
  rfl

/-- Source inputs of the velocity-dispersion decision in
ContinuumFit.continuum_specfit: the per-camera median S/N values recorded at
continuum.py 1847-1848, the redshift, the solve_vdisp configuration flag,
the nominal dispersion, and the abstract outcome (vdispbest, vdispivar) of
the grid search over sigma when it is run. -/
structure VdispInput where
  snrB : ℚ
  snrR : ℚ
  snrZ : ℚ
  redshift : ℚ
  solve_vdisp : Bool
  vdisp_nominal : ℚ
  searchBest : ℚ
  searchIvar : ℚ

/-- Source compute_vdisp (continuum.py 1900): S/N in cameras B and R both
above 3 and redshift below 1. -/
def compute_vdisp (d : VdispInput) : Bool :=
  (decide (3 < d.snrB) && decide (3 < d.snrR)) && decide (d.redshift < 1)

/-- Source continuum.py 1905: the vdisp grid search runs when solve_vdisp
is set or compute_vdisp holds. -/
def vdisp_search_performed (d : VdispInput) : Bool :=
  d.solve_vdisp || compute_vdisp d

/-- Source continuum.py 1905-1993: the adopted (vdispbest, vdispivar); when
the search runs and fails (inverse variance 0) the nominal value is adopted,
and when the search is not run the nominal value is adopted with inverse
variance 0. -/
def vdisp_adopted (d : VdispInput) : ℚ × ℚ :=
  if vdisp_search_performed d then
    (if 0 < d.searchIvar then (d.searchBest, d.searchIvar)
     else (d.vdisp_nominal, d.searchIvar))
  else (d.vdisp_nominal, 0)

/-- The trigger condition as the claim words it: S/N above 3 in the two
reddest cameras (R and Z of the B, R, Z set), redshift below 1, or forced. -/
def vdisp_condition_claimed (d : VdispInput) : Bool :=
  d.solve_vdisp || ((decide (3 < d.snrR) && decide (3 < d.snrZ)) && decide (d.redshift < 1))

theorem C7_cameras_counterexample :
    vdisp_search_performed ⟨4, 4, 0, 0, false, 150, 0, 0⟩ = true ∧
    vdisp_condition_claimed ⟨4, 4, 0, 0, false, 150, 0, 0⟩ = false := by
  constructor
  · norm_num [vdisp_search_performed, compute_vdisp]
  · norm_num [vdisp_condition_claimed]

/-- C7 (amended): the velocity-dispersion grid search runs iff solve_vdisp
is set or (the S/N in cameras B and R - not the two reddest cameras - both
exceed 3 and the redshift is below 1); otherwise the nominal dispersion is
adopted with inverse variance 0. -/
theorem C7_vdisp_condition (d : VdispInput) :
    (vdisp_search_performed d = true ↔
      (d.solve_vdisp = true ∨ (3 < d.snrB ∧ 3 < d.snrR ∧ d.redshift < 1))) ∧
    (vdisp_search_performed d = false →
      vdisp_adopted d = (d.vdisp_nominal, 0)) := by
  constructor
  · unfold vdisp_search_performed compute_vdisp
    rcases d.solve_vdisp with _ | _ <;> simp [and_assoc]
  · intro h
    unfold vdisp_adopted
    rw [if_neg]
    rw [h]
    exact Bool.false_ne_true

theorem C7_vdisp_condition_witness :
    vdisp_adopted ⟨0, 4, 4, 0, false, 150, 200, 5⟩ = (150, 0) := by
  have h := (C7_vdisp_condition ⟨0, 4, 4, 0, false, 150, 200, 5⟩).2
  apply h
  norm_num [vdisp_search_performed, compute_vdisp]

/-- Python index normalization for slicing: negative indices count from the
end, and out-of-range indices are clamped. -/
def pyIdx (n : ℕ) (i : ℤ) : ℤ :=
  if i < 0 then max 0 (i + n) else min i n

/-- Python list slicing l[a:b] including negative-index normalization. -/
def pySlice {α : Type} (l : List α) (a b : ℤ) : List α :=
  (l.drop (pyIdx l.length a).toNat).take (pyIdx l.length b - pyIdx l.length a).toNat

/-- Minimum of a list of rationals (0 for the empty list). -/
def listMin : List ℚ → ℚ
  | [] => 0
  | [x] => x
  | x :: y :: xs => min x (listMin (y :: xs))

/-- Modelled from the spec: fastspecfit.util.find_minima (the module
fastspecfit/util.py is not under src/); its first returned index, used at
continuum.py 1636, is the index of the (first) minimum of the chi2 curve. -/
def find_minima_first : List ℚ → ℕ
  | [] => 0
  | [_] => 0
  | x :: y :: xs => if x ≤ listMin (y :: xs) then 0 else find_minima_first (y :: xs) + 1

/-- Modelled from the spec: fastspecfit.util.minfit (fastspecfit/util.py is
not under src/).  Per the spec it fits a parabola through the chi2 minimum
and its two neighbors to get a sub-grid best value and a curvature-derived
inverse variance, and signals a warning (nonzero warn) when the fit is
degenerate or throws - fewer than three points (the slice
xparam[imin-1:imin+2] is short because the minimum sat at a grid edge),
repeated abscissae, or non-positive curvature.  Returns
(xbest, xerr2, ymin, warn); xerr2 models xerr**2 so that the caller's
1/xerr**2 stays rational. -/
def minfit (xs ys : List ℚ) : ℚ × ℚ × ℚ × ℕ :=
  if xs.length = 3 ∧ ys.length = 3 then
    let x0 := xs.getD 0 0
    let x1 := xs.getD 1 0
    let x2 := xs.getD 2 0
    let y0 := ys.getD 0 0
    let y1 := ys.getD 1 0
    let y2 := ys.getD 2 0
    if x0 = x1 ∨ x1 = x2 ∨ x0 = x2 then (0, 0, 0, 1)
    else
      let d1 := (y1 - y0) / (x1 - x0)
      let d2 := (y2 - y1) / (x2 - x1)
      let a := (d2 - d1) / (x2 - x0)
      if a ≤ 0 then (0, 0, 0, 1)
      else
        let b := d1 - a * (x0 + x1)
        (-b / (2 * a), 1 / a, y0 - a * x0 ^ 2 - b * x0 - (b ^ 2 / (4 * a)), 0)
  else (0, 0, 0, 1)

/-- Source grid-search branch of ContinuumFit._fnnls_parallel
(continuum.py 1635-1648): locate the chi2 minimum, run the three-point
parabola refinement on xparam[imin-1:imin+2], and return
(chi2min, xbest, xivar); on any warning the chi2 and the inverse variance
are zeroed and xbest falls back to xparam[0]. -/
def fnnls_parallel_grid (xparam chi2grid : List ℚ) : ℚ × ℚ × ℚ :=
  let imin : ℤ := (find_minima_first chi2grid : ℤ)
  let m := minfit (pySlice xparam (imin - 1) (imin + 2)) (pySlice chi2grid (imin - 1) (imin + 2))
  if m.2.2.2 = 0 then (m.2.2.1, m.1, 1 / m.2.1)
  else (0, xparam.getD 0 0, 0)

/-- Source caller-side adoption (continuum.py 1890-1896 for A(V) and
1986-1991 for sigma): keep the refined value only when its inverse variance
is positive, else adopt the nominal value. -/
def adopt_nominal (best ivar nominal : ℚ) : ℚ :=
  if 0 < ivar then best else nominal

lemma minfit_warn_of_short (xs ys : List ℚ) (h : ys.length ≠ 3) :
    (minfit xs ys).2.2.2 = 1 := by
  unfold minfit
  rw [if_neg]
  intro hc
  exact h hc.2

lemma pySlice_length_le {α : Type} (l : List α) (a b : ℤ) :
    (pySlice l a b).length ≤ l.length - (pyIdx l.length a).toNat := by
  unfold pySlice
  rw [List.length_take, List.length_drop]
  exact min_le_right _ _

lemma edge_slice_short (l : List ℚ) (imin : ℕ)
    (h : imin = 0 ∨ imin = l.length - 1) :
    (pySlice l ((imin : ℤ) - 1) ((imin : ℤ) + 2)).length ≠ 3 := by
  intro h3
  have hle := pySlice_length_le l ((imin : ℤ) - 1) ((imin : ℤ) + 2)
  rw [h3] at hle
  unfold pyIdx at hle
  rcases h with h0 | hlast
  · subst h0
    simp only [Nat.cast_zero, zero_sub] at hle
    rw [if_pos (by norm_num)] at hle
    omega
  · subst hlast
    by_cases hsm : l.length < 2
    · rw [if_pos (by omega)] at hle
      omega
    · rw [if_neg (by omega)] at hle
      omega

/-- C8: whenever the chi2 curve's minimum lies at either grid edge or the
three-point parabola fit is degenerate, the sub-grid refinement is skipped:
the grid search reports inverse variance 0 and the calling fit sequence
adopts the nominal parameter value. -/
theorem C8_grid_edge_fallback (xparam chi2grid : List ℚ) (nominal : ℚ)
    (h : find_minima_first chi2grid = 0 ∨
         find_minima_first chi2grid = chi2grid.length - 1 ∨
         (minfit (pySlice xparam ((find_minima_first chi2grid : ℤ) - 1)
                    ((find_minima_first chi2grid : ℤ) + 2))
                 (pySlice chi2grid ((find_minima_first chi2grid : ℤ) - 1)
                    ((find_minima_first chi2grid : ℤ) + 2))).2.2.2 ≠ 0) :
    (fnnls_parallel_grid xparam chi2grid).2.2 = 0 ∧
    adopt_nominal (fnnls_parallel_grid xparam chi2grid).2.1
      (fnnls_parallel_grid xparam chi2grid).2.2 nominal = nominal := by
  have hwarn : (minfit (pySlice xparam ((find_minima_first chi2grid : ℤ) - 1)
                  ((find_minima_first chi2grid : ℤ) + 2))
                (pySlice chi2grid ((find_minima_first chi2grid : ℤ) - 1)
                  ((find_minima_first chi2grid : ℤ) + 2))).2.2.2 ≠ 0 := by
    rcases h with h0 | hlast | hdeg
    · rw [minfit_warn_of_short _ _ (edge_slice_short chi2grid _ (Or.inl h0))]
      exact one_ne_zero
    · rw [minfit_warn_of_short _ _ (edge_slice_short chi2grid _ (Or.inr hlast))]
      exact one_ne_zero
    · exact hdeg
  have hgrid : fnnls_parallel_grid xparam chi2grid = (0, xparam.getD 0 0, 0) := by
    unfold fnnls_parallel_grid
    rw [if_neg hwarn]
  rw [hgrid]
  exact ⟨rfl, by unfold adopt_nominal; rw [if_neg (lt_irrefl 0)]⟩

theorem C8_grid_edge_fallback_witness :
    (fnnls_parallel_grid [1, 2, 3] [5, 6, 7]).2.2 = 0 ∧
    adopt_nominal (fnnls_parallel_grid [1, 2, 3] [5, 6, 7]).2.1
      (fnnls_parallel_grid [1, 2, 3] [5, 6, 7]).2.2 4 = 4 := by
  apply C8_grid_edge_fallback
  left
  norm_num [find_minima_first, listMin]

/-- One entry of the fitted emission-line parameter model: its name, fitted
value, and fixed flag (the dynamic per-parameter attributes used throughout
emlines.py). -/
structure Param where
  name : String
  value : ℚ
  fixed : Bool

/-- Attribute access finalfit.name used at emlines.py 1030/1033/1036: the
raw fitted value of the named parameter (0 when absent). -/
def paramValue (ps : List Param) (n : String) : ℚ :=
  match ps.find? (fun p => p.name == n) with
  | some p => p.value
  | none => 0

/-- The doublet-related columns of the emission-line output table
(init_output, emlines.py 448-455), all initialized to zero. -/
structure DoubletCols where
  ratioOII : ℚ := 0
  ampOII3726 : ℚ := 0
  ampOII3729 : ℚ := 0
  ratioSII : ℚ := 0
  ampSII6731 : ℚ := 0
  ampSII6716 : ℚ := 0
  ratioMgII : ℚ := 0
  ampMgII2796 : ℚ := 0
  ampMgII2803 : ℚ := 0

/-- Source output-fill loop body of EMLineFit.fit (emlines.py 1021-1044),
restricted to the doublet-related columns: each parameter writes val (its
value, or 0 when it is fixed) into its own column, and the three
doublet-ratio parameters additionally write val times the partner line's
raw fitted amplitude into the dependent line's amplitude column. -/
def applyParam (ps : List Param) (r : DoubletCols) (p : Param) : DoubletCols :=
  let val := if p.fixed then 0 else p.value
  if p.name == "oii_doublet_ratio" then
    { r with ratioOII := val, ampOII3726 := val * paramValue ps "oii_3729_amp" }
  else if p.name == "sii_doublet_ratio" then
    { r with ratioSII := val, ampSII6731 := val * paramValue ps "sii_6716_amp" }
  else if p.name == "mgii_doublet_ratio" then
    { r with ratioMgII := val, ampMgII2796 := val * paramValue ps "mgii_2803_amp" }
  else if p.name == "oii_3729_amp" then { r with ampOII3729 := val }
  else if p.name == "sii_6716_amp" then { r with ampSII6716 := val }
  else if p.name == "mgii_2803_amp" then { r with ampMgII2803 := val }
  else r

/-- Source output-fill loop of EMLineFit.fit over all parameters. -/
def fillDoubletCols (ps : List Param) : DoubletCols :=
  ps.foldl (applyParam ps) {}

/-- Source parameter naming of build_linemodels (emlines.py 48-56): the
amplitude of one twin of each physical doublet is replaced by a
doublet-ratio parameter. -/
def doubletSub (pn : String) : String :=
  if pn == "mgii_2796_amp" then "mgii_doublet_ratio"
  else if pn == "oii_3726_amp" then "oii_doublet_ratio"
  else if pn == "sii_6731_amp" then "sii_doublet_ratio"
  else pn

/-- Source parameter list of build_linemodels (emlines.py 44-57): three
parameters per line, with the doublet substitution applied. -/
def emline_param_names (linenames : List String) : List String :=
  linenames.flatMap (fun ln =>
    ["amp", "vshift", "sigma"].map (fun p => doubletSub (ln ++ "_" ++ p)))

/-- The value written into a parameter's own output column: 0 when the
parameter was fixed (not optimized), its fitted value otherwise
(emlines.py 1023-1026). -/
def pval (p : Param) : ℚ := if p.fixed then 0 else p.value

lemma foldl_keep_gen (ps : List Param) (get : DoubletCols → ℚ) (n : String)
    (hkeep : ∀ (r : DoubletCols) (p : Param), p.name ≠ n →
      get (applyParam ps r p) = get r) :
    ∀ (l : List Param) (r : DoubletCols), (∀ p ∈ l, p.name ≠ n) →
      get (l.foldl (applyParam ps) r) = get r
  | [], _, _ => rfl
  | p :: l, r, h => by
    rw [List.foldl_cons]
    rw [foldl_keep_gen ps get n hkeep l (applyParam ps r p)
      (fun q hq => h q (List.mem_cons_of_mem p hq))]
    exact hkeep r p (h p (List.mem_cons_self p l))

lemma foldl_char_gen (ps : List Param) (get : DoubletCols → ℚ) (n : String)
    (w : Param → ℚ)
    (hwrite : ∀ (r : DoubletCols) (p : Param), p.name = n →
      get (applyParam ps r p) = w p)
    (hkeep : ∀ (r : DoubletCols) (p : Param), p.name ≠ n →
      get (applyParam ps r p) = get r) :
    ∀ (l : List Param) (r : DoubletCols), (l.map Param.name).Nodup →
      get (l.foldl (applyParam ps) r) =
        ((l.find? (fun p => p.name == n)).map w).getD (get r)
  | [], _, _ => rfl
  | p :: l, r, hnd => by
    rw [List.foldl_cons]
    by_cases hp : p.name = n
    · rw [List.find?_cons_of_pos _ (by simpa using hp)]
      have hnotin : ∀ q ∈ l, q.name ≠ n := by
        intro q hq hqe
        have hmem : p.name ∈ l.map Param.name := by
          rw [hp, ← hqe]
          exact List.mem_map_of_mem Param.name hq
        exact (List.nodup_cons.mp hnd).1 hmem
      rw [foldl_keep_gen ps get n hkeep l (applyParam ps r p) hnotin]
      rw [hwrite r p hp]
      rfl
    · rw [List.find?_cons_of_neg _ (by simpa using hp)]
      rw [foldl_char_gen ps get n w hwrite hkeep l (applyParam ps r p)
        (List.nodup_cons.mp hnd).2]
      cases l.find? (fun q => q.name == n) with
      | some q => rfl
      | none => exact hkeep r p hp

lemma paramValue_eq_pval (ps : List Param) (n : String)
    (hfix : ∀ p ∈ ps, p.fixed = true → p.value = 0) :
    paramValue ps n = ((ps.find? (fun p => p.name == n)).map pval).getD 0 := by
  unfold paramValue
  cases hf : ps.find? (fun p => p.name == n) with
  | none => rfl
  | some q =>
    have hq : q ∈ ps := List.mem_of_find?_eq_some hf
    show q.value = pval q
    unfold pval
    by_cases hqf : q.fixed
    · rw [if_pos hqf, hfix q hq hqf]
    · rw [if_neg hqf]

lemma doubletSub_never_dependent (s : String) :
    doubletSub s ≠ "oii_3726_amp" ∧ doubletSub s ≠ "sii_6731_amp" ∧
    doubletSub s ≠ "mgii_2796_amp" := by
  unfold doubletSub
  split_ifs with h1 h2 h3
  · refine ⟨?_, ?_, ?_⟩ <;> decide
  · refine ⟨?_, ?_, ?_⟩ <;> decide
  · refine ⟨?_, ?_, ?_⟩ <;> decide
  · refine ⟨?_, ?_, ?_⟩ <;> simp_all

set_option maxHeartbeats 2000000 in
/-- C5: for each of the three fitted doublets the dependent line's output
amplitude equals the fitted doublet-ratio parameter times the partner
line's fitted amplitude exactly, and no independent amplitude parameter for
the dependent lines exists in the parameter model.  The hypotheses record
invariants of the source parameter model: parameter names are unique, and a
fixed parameter carries value 0 (fixing is always accompanied by zeroing in
emlines.py). -/
theorem C5_doublet_columns (ps : List Param) (lns : List String)
    (hnd : (ps.map Param.name).Nodup)
    (hfix : ∀ p ∈ ps, p.fixed = true → p.value = 0) :
    ((fillDoubletCols ps).ampOII3726 =
       (fillDoubletCols ps).ratioOII * (fillDoubletCols ps).ampOII3729) ∧
    ((fillDoubletCols ps).ampSII6731 =
       (fillDoubletCols ps).ratioSII * (fillDoubletCols ps).ampSII6716) ∧
    ((fillDoubletCols ps).ampMgII2796 =
       (fillDoubletCols ps).ratioMgII * (fillDoubletCols ps).ampMgII2803) ∧
    (∀ s ∈ emline_param_names lns,
      s ≠ "oii_3726_amp" ∧ s ≠ "sii_6731_amp" ∧ s ≠ "mgii_2796_amp") := by
  have hOII := foldl_char_gen ps DoubletCols.ratioOII "oii_doublet_ratio" pval
    (by intro r p hp; simp only [applyParam]; rw [hp]; simp [pval])
    (by
      intro r p hp
      unfold applyParam
      split_ifs <;> first | rfl | exact absurd (eq_of_beq (by assumption)) hp)
    ps {} hnd
  have hOIIdep := foldl_char_gen ps DoubletCols.ampOII3726 "oii_doublet_ratio"
    (fun p => pval p * paramValue ps "oii_3729_amp")
    (by intro r p hp; simp only [applyParam]; rw [hp]; simp [pval])
    (by
      intro r p hp
      unfold applyParam
      split_ifs <;> first | rfl | exact absurd (eq_of_beq (by assumption)) hp)
    ps {} hnd
  have hOIIpar := foldl_char_gen ps DoubletCols.ampOII3729 "oii_3729_amp" pval
    (by intro r p hp; simp only [applyParam]; rw [hp]; simp [pval])
    (by
      intro r p hp
      unfold applyParam
      split_ifs <;> first | rfl | exact absurd (eq_of_beq (by assumption)) hp)
    ps {} hnd
  have hSII := foldl_char_gen ps DoubletCols.ratioSII "sii_doublet_ratio" pval
    (by intro r p hp; simp only [applyParam]; rw [hp]; simp [pval])
    (by
      intro r p hp
      unfold applyParam
      split_ifs <;> first | rfl | exact absurd (eq_of_beq (by assumption)) hp)
    ps {} hnd
  have hSIIdep := foldl_char_gen ps DoubletCols.ampSII6731 "sii_doublet_ratio"
    (fun p => pval p * paramValue ps "sii_6716_amp")
    (by intro r p hp; simp only [applyParam]; rw [hp]; simp [pval])
    (by
      intro r p hp
      unfold applyParam
      split_ifs <;> first | rfl | exact absurd (eq_of_beq (by assumption)) hp)
    ps {} hnd
  have hSIIpar := foldl_char_gen ps DoubletCols.ampSII6716 "sii_6716_amp" pval
    (by intro r p hp; simp only [applyParam]; rw [hp]; simp [pval])
    (by
      intro r p hp
      unfold applyParam
      split_ifs <;> first | rfl | exact absurd (eq_of_beq (by assumption)) hp)
    ps {} hnd
  have hMgII := foldl_char_gen ps DoubletCols.ratioMgII "mgii_doublet_ratio" pval
    (by intro r p hp; simp only [applyParam]; rw [hp]; simp [pval])
    (by
      intro r p hp
      unfold applyParam
      split_ifs <;> first | rfl | exact absurd (eq_of_beq (by assumption)) hp)
    ps {} hnd
  have hMgIIdep := foldl_char_gen ps DoubletCols.ampMgII2796 "mgii_doublet_ratio"
    (fun p => pval p * paramValue ps "mgii_2803_amp")
    (by intro r p hp; simp only [applyParam]; rw [hp]; simp [pval])
    (by
      intro r p hp
      unfold applyParam
      split_ifs <;> first | rfl | exact absurd (eq_of_beq (by assumption)) hp)
    ps {} hnd
  have hMgIIpar := foldl_char_gen ps DoubletCols.ampMgII2803 "mgii_2803_amp" pval
    (by intro r p hp; simp only [applyParam]; rw [hp]; simp [pval])
    (by
      intro r p hp
      unfold applyParam
      split_ifs <;> first | rfl | exact absurd (eq_of_beq (by assumption)) hp)
    ps {} hnd
  refine ⟨?_, ?_, ?_, ?_⟩
  · show (fillDoubletCols ps).ampOII3726 = _
    unfold fillDoubletCols at hOII hOIIdep hOIIpar ⊢
    rw [hOII, hOIIdep, hOIIpar, ← paramValue_eq_pval ps "oii_3729_amp" hfix]
    cases ps.find? (fun p => p.name == "oii_doublet_ratio") with
    | none => show (0 : ℚ) = 0 * _ ; ring
    | some q => rfl
  · show (fillDoubletCols ps).ampSII6731 = _
    unfold fillDoubletCols at hSII hSIIdep hSIIpar ⊢
    rw [hSII, hSIIdep, hSIIpar, ← paramValue_eq_pval ps "sii_6716_amp" hfix]
    cases ps.find? (fun p => p.name == "sii_doublet_ratio") with
    | none => show (0 : ℚ) = 0 * _ ; ring
    | some q => rfl
  · show (fillDoubletCols ps).ampMgII2796 = _
    unfold fillDoubletCols at hMgII hMgIIdep hMgIIpar ⊢
    rw [hMgII, hMgIIdep, hMgIIpar, ← paramValue_eq_pval ps "mgii_2803_amp" hfix]
    cases ps.find? (fun p => p.name == "mgii_doublet_ratio") with
    | none => show (0 : ℚ) = 0 * _ ; ring
    | some q => rfl
  · intro s hs
    rw [emline_param_names, List.mem_flatMap] at hs
    obtain ⟨ln, _, hmem⟩ := hs
    rw [List.mem_map] at hmem
    obtain ⟨pp, _, rfl⟩ := hmem
    exact doubletSub_never_dependent _

theorem C5_doublet_columns_witness :
    (fillDoubletCols [⟨"oii_doublet_ratio", 7 / 10, false⟩, ⟨"oii_3729_amp", 10, false⟩,
        ⟨"sii_doublet_ratio", 1, false⟩, ⟨"sii_6716_amp", 2, false⟩,
        ⟨"mgii_doublet_ratio", 1 / 2, false⟩, ⟨"mgii_2803_amp", 4, false⟩]).ampOII3726 =
      (fillDoubletCols [⟨"oii_doublet_ratio", 7 / 10, false⟩, ⟨"oii_3729_amp", 10, false⟩,
        ⟨"sii_doublet_ratio", 1, false⟩, ⟨"sii_6716_amp", 2, false⟩,
        ⟨"mgii_doublet_ratio", 1 / 2, false⟩, ⟨"mgii_2803_amp", 4, false⟩]).ratioOII *
      (fillDoubletCols [⟨"oii_doublet_ratio", 7 / 10, false⟩, ⟨"oii_3729_amp", 10, false⟩,
        ⟨"sii_doublet_ratio", 1, false⟩, ⟨"sii_6716_amp", 2, false⟩,
        ⟨"mgii_doublet_ratio", 1 / 2, false⟩, ⟨"mgii_2803_amp", 4, false⟩]).ampOII3729 :=
  (C5_doublet_columns _ ["oii_3726"] (by decide)
    (by
      intro p hp hpf
      simp only [List.mem_cons, List.not_mem_nil, or_false] at hp
      rcases hp with h | h | h | h | h | h <;> (subst h; exact absurd hpf (by decide)))).1

/-- A statement of the straight-line name-resolution model of a Python
function body: assign binds a local name, use reads a name (raising
NameError when it is unbound), breakpoint is an unconditional
pdb.set_trace(), and ret reads every local name referenced by the return
expression and terminates the function. -/
inductive Stmt where
  | assign : String → Stmt
  | use : String → Stmt
  | breakpoint : Stmt
  | ret : List String → Stmt

/-- Execution of a straight-line body: counts the breakpoints hit and either
completes normally or stops at the first read of an unbound name with that
name as the NameError payload. -/
def runProg : List Stmt → List String → ℕ → ℕ × Except String Unit
  | [], _, bps => (bps, Except.ok ())
  | Stmt.assign n :: rest, env, bps => runProg rest (n :: env) bps
  | Stmt.use n :: rest, env, bps =>
    if n ∈ env then runProg rest env bps else (bps, Except.error n)
  | Stmt.breakpoint :: rest, env, bps => runProg rest env (bps + 1)
  | Stmt.ret ns :: _, env, bps =>
    match ns.find? (fun n => !env.contains n) with
    | some n => (bps, Except.error n)
    | none => (bps, Except.ok ())

/-- The local names assigned before the first return statement of a
straight-line body (static binding analysis). -/
def assignsBeforeRet : List Stmt → List String
  | [] => []
  | Stmt.assign n :: rest => n :: assignsBeforeRet rest
  | Stmt.ret _ :: _ => []
  | Stmt.use _ :: rest => assignsBeforeRet rest
  | Stmt.breakpoint :: rest => assignsBeforeRet rest

/-- Source build_linemodels (emlines.py 37-222) at the name-resolution
level: the bare local names assigned by the straight-line body (the loops
at 87-169 only mutate columns of the linemodel table), the unconditional
pdb.set_trace() at line 186, the read of the never-assigned name zline at
line 195 (its defining assignment at line 73 is commented out), and the
return statement at line 222 referencing tied, tiedtoline and fixed.
Value-level exceptions are not modelled; they could only make execution
stop even earlier. -/
def build_linemodels_prog : List Stmt := [
  Stmt.assign "linenames",
  Stmt.assign "param_names",
  Stmt.assign "_linenames",
  Stmt.assign "nparam",
  Stmt.assign "linemodel",
  Stmt.breakpoint,
  Stmt.assign "neverfix",
  Stmt.use "zline",
  Stmt.assign "inrange",
  Stmt.assign "outofrange",
  Stmt.assign "fixed",
  Stmt.ret ["tied", "tiedtoline", "fixed"]]

/-- The initial environment of build_linemodels: its parameters. -/
def build_linemodels_env : List String := ["linetable", "redshift", "wavelims", "verbose"]

/-- Source EMLineFit.fit prelude (emlines.py 749-774) at the
name-resolution level: the local assignments up to wavelims, then the
unconditional pdb.set_trace() at line 774, after which the if True: block
at 777 calls build_linemodels. -/
def emlinefit_prelude_prog : List Stmt := [
  Stmt.assign "redshift",
  Stmt.assign "emlinewave",
  Stmt.assign "oemlineivar",
  Stmt.assign "specflux",
  Stmt.assign "continuummodelflux",
  Stmt.assign "smoothcontinuummodelflux",
  Stmt.assign "emlineflux",
  Stmt.assign "npixpercamera",
  Stmt.assign "npixpercam",
  Stmt.assign "emlineivar",
  Stmt.assign "emlinevar",
  Stmt.assign "emlinegood",
  Stmt.assign "emlinebad",
  Stmt.assign "weights",
  Stmt.assign "wavelims",
  Stmt.breakpoint]

/-- The initial environment of EMLineFit.fit: its parameters. -/
def emlinefit_env : List String :=
  ["self", "data", "continuummodel", "smooth_continuum", "synthphot",
   "maxiter", "accuracy", "verbose", "broadlinefit"]

/-- Source EMLineFit.fit (emlines.py 723-778) at the name-resolution level:
run the prelude, then call build_linemodels (line 778); an error raised by
the callee propagates.  The code after the call is unreachable (the callee
raises) and is not modelled. -/
def emlinefit_fit_run : ℕ × Except String Unit :=
  match runProg emlinefit_prelude_prog emlinefit_env 0 with
  | (b, Except.ok _) =>
    match runProg build_linemodels_prog build_linemodels_env b with
    | (b2, Except.ok _) => (b2, Except.ok ())
    | (b2, Except.error e) => (b2, Except.error e)
  | r => r

theorem C1_fixed_is_assigned :
    "fixed" ∈ assignsBeforeRet build_linemodels_prog ∧
    ¬("tied" ∉ assignsBeforeRet build_linemodels_prog ∧
      "tiedtoline" ∉ assignsBeforeRet build_linemodels_prog ∧
      "fixed" ∉ assignsBeforeRet build_linemodels_prog) := by
  refine ⟨?_, ?_⟩
  · decide
  · intro hc
    exact hc.2.2 (by decide)

/-- C1 (amended): EMLineFit.fit never returns normally: it hits the
unconditional breakpoint at line 774, calls build_linemodels, which hits
the unconditional breakpoint at line 186 and then raises NameError at the
read of the undefined name zline, so the documented (result, modelspectra)
output is unreachable; the (unreachable) return statement of
build_linemodels references the undefined names tied and tiedtoline, while
fixed is assigned earlier in the function body. -/
theorem C1_fit_never_returns :
    emlinefit_fit_run = (2, Except.error "zline") ∧
    runProg build_linemodels_prog build_linemodels_env 0 = (1, Except.error "zline") ∧
    "tied" ∉ assignsBeforeRet build_linemodels_prog ∧
    "tiedtoline" ∉ assignsBeforeRet build_linemodels_prog := by
  refine ⟨?_, ?_, ?_, ?_⟩
  · rfl
  · rfl
  · decide
  · decide

end FastSpecFit
